import Mathlib

/-
  Verification of the EXtra-data writer2 write-path engine.

  The definitions below are a shallow embedding of src/extra_data/writer2.py:
  h5py datasets become lists with an explicit growth-axis length, and the
  bounds checks h5py performs on range writes become Option-valued results
  (none = the HDF5 layer raises because a selection exceeds the extent).
-/

set_option linter.unusedVariables false

/-- Element access with default 0, modelling integer indexing into an index list. -/
def nth (l : List Nat) (i : Nat) : Nat := l.getD i 0

/-- Overwrite the slice of l starting at s with xs (numpy slice assignment,
assuming the slice fits, as numpy requires). -/
def setSlice {α : Type} (l : List α) (s : Nat) (xs : List α) : List α :=
  l.take s ++ xs ++ l.drop (s + xs.length)

/-- h5py Dataset.resize along the growth axis: truncate or pad with the
dtype's default to length n. -/
def listResize {α : Type} (l : List α) (n : Nat) (d : α) : List α :=
  l.take n ++ List.replicate (n - l.length) d

/-- Model of an h5py dataset: the contents along the growth axis
(the fixed per-entry shape is abstracted into the row type α). -/
structure FileDS (α : Type) where
  data : List α
deriving DecidableEq

/-- Dataset.resize(n, 0). -/
def FileDS.resize {α : Type} [Inhabited α] (f : FileDS α) (n : Nat) : FileDS α :=
  ⟨listResize f.data n default⟩

/-- write_direct / slice write at rows [a, a + len xs): h5py raises when the
destination selection exceeds the dataset extent, modelled as none. -/
def FileDS.writeAt {α : Type} (f : FileDS α) (a : Nat) (xs : List α) :
    Option (FileDS α) :=
  if a + xs.length ≤ f.data.length then some ⟨setSlice f.data a xs⟩ else none

/-- State of DatasetDirectWriter (from DatasetWriterBase: only the position). -/
structure DatasetDirectWriter where
  pos : Nat
deriving DecidableEq

/-- DatasetDirectWriter.write:
    end = self.pos + nrec; self.file_ds.resize(end, 0);
    self.file_ds[self.pos:end] = data.
Note that the source never updates self.pos. -/
def DatasetDirectWriter.write {α : Type} [Inhabited α] (w : DatasetDirectWriter)
    (f : FileDS α) (data : List α) (nrec : Nat) :
    Option (DatasetDirectWriter × FileDS α) :=
  let en := w.pos + nrec
  let f1 := f.resize en
  (f1.writeAt w.pos data).map (fun f2 => (w, f2))

/-- State of DatasetBufferedWriter: staging block _data (buf), chunk row
count (size), fill level (nbuf) and flushed position (pos). -/
structure DatasetBufferedWriter (α : Type) where
  buf : List α
  size : Nat
  nbuf : Nat
  pos : Nat
deriving DecidableEq

/-- DatasetBufferedWriter.flush: if nbuf is nonzero, resize the dataset to
pos + nbuf, write_direct the staged rows there, advance pos, reset nbuf. -/
def DatasetBufferedWriter.flush {α : Type} [Inhabited α]
    (w : DatasetBufferedWriter α) (f : FileDS α) :
    Option (DatasetBufferedWriter α × FileDS α) :=
  if w.nbuf ≠ 0 then
    let en := w.pos + w.nbuf
    let f1 := f.resize en
    (f1.writeAt w.pos (w.buf.take w.nbuf)).map
      (fun f2 => ({ w with pos := en, nbuf := 0 }, f2))
  else
    some (w, f)

/-- DatasetBufferedWriter.write_one: store the value at staging slot nbuf
(numpy raises when nbuf is out of range), increment nbuf, flush when full. -/
def DatasetBufferedWriter.write_one {α : Type} [Inhabited α]
    (w : DatasetBufferedWriter α) (f : FileDS α) (value : α) :
    Option (DatasetBufferedWriter α × FileDS α) :=
  if w.nbuf < w.buf.length then
    let w1 := { w with buf := w.buf.set w.nbuf value, nbuf := w.nbuf + 1 }
    if w1.size ≤ w1.nbuf then w1.flush f else some (w1, f)
  else none

/-- DatasetBufferedWriter.write_many, translated branch by branch.  The
arithmetic for buf_nrest / data_nrest is done in Int exactly as Python does.
In the middle branch (copy, flush, copy) the source performs write_direct
at rows [pos, pos + size) without resizing the dataset first. -/
def DatasetBufferedWriter.write_many {α : Type} [Inhabited α]
    (w : DatasetBufferedWriter α) (f : FileDS α) (arr : List α) (nrec : Nat) :
    Option (DatasetBufferedWriter α × FileDS α) :=
  let buf_nrest : Int := (w.size : Int) - (w.nbuf : Int)
  let data_nrest : Int := (nrec : Int) - buf_nrest
  if data_nrest < 0 then
    -- copy
    let en := w.nbuf + nrec
    some ({ w with buf := setSlice w.buf w.nbuf arr, nbuf := en }, f)
  else if w.nbuf ≠ 0 ∧ data_nrest < (w.size : Int) then
    -- copy, flush, copy (the bulk write covers rows [pos, pos + size))
    let buf1 := setSlice w.buf w.nbuf (arr.take buf_nrest.toNat)
    let en := w.pos + w.size
    (f.writeAt w.pos buf1).map (fun f2 =>
      ({ w with buf := setSlice buf1 0 (arr.drop buf_nrest.toNat),
                pos := en, nbuf := data_nrest.toNat }, f2))
  else
    -- flush, write, copy
    let nrest := nrec % w.size
    let nwrite := nrec - nrest
    let split := w.pos + w.nbuf
    let en := split + nwrite
    let f1 := f.resize en
    let step : Option (FileDS α) :=
      if w.nbuf ≠ 0 then f1.writeAt w.pos (w.buf.take w.nbuf) else some f1
    step.bind (fun f2 => (f2.writeAt split (arr.take nwrite)).map (fun f3 =>
      ({ w with buf := setSlice w.buf 0 (arr.drop nwrite),
                pos := en, nbuf := nrest }, f3)))

/-- DatasetBufferedWriter.write: dispatch on nrec == 1; for batches the data
is already broadcast to nrec rows (here: a list of nrec rows). -/
def DatasetBufferedWriter.write {α : Type} [Inhabited α]
    (w : DatasetBufferedWriter α) (f : FileDS α) (data : List α) (nrec : Nat) :
    Option (DatasetBufferedWriter α × FileDS α) :=
  if nrec = 1 then w.write_one f data.headI
  else w.write_many f data nrec

/-- Run a sequence of write(data, nrec) calls through a buffered writer. -/
def bufferedRunFrom {α : Type} [Inhabited α]
    (s : DatasetBufferedWriter α × FileDS α) :
    List (List α × Nat) → Option (DatasetBufferedWriter α × FileDS α)
  | [] => some s
  | (d, n) :: rest => (s.1.write s.2 d n).bind (fun s1 => bufferedRunFrom s1 rest)

/-- Fresh buffered writer over a staging block of the given chunk row count. -/
def bwInit (size : Nat) : DatasetBufferedWriter Nat :=
  ⟨List.replicate size 0, size, 0, 0⟩

/-- Contents of the backing array after a call sequence and a final flush,
through a DatasetBufferedWriter with the given chunk row count. -/
def bufferedRun (size : Nat) (prog : List (List Nat × Nat)) : Option (List Nat) :=
  (bufferedRunFrom (bwInit size, ⟨[]⟩) prog).bind
    (fun s => (s.1.flush s.2).map (fun s1 => s1.2.data))

/-- Run a sequence of write(data, nrec) calls through a direct writer. -/
def directRunFrom {α : Type} [Inhabited α] (s : DatasetDirectWriter × FileDS α) :
    List (List α × Nat) → Option (DatasetDirectWriter × FileDS α)
  | [] => some s
  | (d, n) :: rest => (s.1.write s.2 d n).bind (fun s1 => directRunFrom s1 rest)

/-- Contents of the backing array after a call sequence through a
DatasetDirectWriter (its flush, inherited from DatasetWriterBase, is a no-op). -/
def directRun (prog : List (List Nat × Nat)) : Option (List Nat) :=
  (directRunFrom (⟨0⟩, ⟨[]⟩) prog).map (fun s => s.2.data)

/-- Dataset descriptor: the fields consulted by chunks_autosize and create.
The dtype is abstracted to its itemsize; stype 0 marks a control source. -/
structure Dataset where
  entry_shape : List Nat
  itemsize : Nat
  chunks : Option (List Nat)
  stype : Nat
deriving DecidableEq

/-- Dataset.chunks_autosize: returns None when an explicit chunks override
is present, otherwise picks a chunk row count from a per-bucket byte budget
SZ and minimum row count MN, clamped to max_trains for control sources. -/
def Dataset.chunks_autosize (d : Dataset) (max_trains : Nat) : Option (List Nat) :=
  if d.chunks.isSome then none
  else
    let MN := [max_trains, 32, 32]
    let SZ := [16384, 524288, 8388608]
    let size := d.entry_shape.prod
    let ndim := d.entry_shape.length
    let nbytes := size * d.itemsize
    let entry_type := (if size ≠ 1 then 1 else 0) * (1 + (if ndim > 1 then 1 else 0))
    let chunk := max (nth SZ entry_type / nbytes) (nth MN entry_type)
    let chunk1 := if d.stype = 0 then min chunk max_trains else chunk
    some (chunk1 :: d.entry_shape)

/-- The arguments Dataset.create passes to grp.create_dataset. -/
structure CreatedFileDS where
  shape : List Nat
  chunksArg : Option (List Nat)
deriving DecidableEq

/-- The writer object Dataset.create constructs: which class, and the
chunks value handed to its constructor. -/
structure CreatedWriter where
  buffered : Bool
  chunks : Option (List Nat)
deriving DecidableEq

/-- The shape of the in-memory staging block np.empty(chunks) allocated by
DatasetBufferedWriter.__init__ (a direct writer allocates none). -/
def CreatedWriter.stagingShape (w : CreatedWriter) : Option (List Nat) :=
  if w.buffered then w.chunks else none

/-- Dataset.create: creates the file dataset with shape (0,) + entry_shape
and chunks = self.chunks (the user-supplied override, None by default),
then builds the writer with the autosized chunks. -/
def Dataset.create (d : Dataset) (max_trains : Nat) (buffering : Bool) :
    CreatedFileDS × CreatedWriter :=
  let chunks := d.chunks_autosize max_trains
  (⟨0 :: d.entry_shape, d.chunks⟩, ⟨buffering, chunks⟩)

/-- Index bookkeeping state of Source: per-train start offsets (first),
per-train entry counts (count), the running position and the entry count
staged for the current train. -/
structure Source where
  first : List Nat
  count : List Nat
  pos : Nat
  nrec : Nat
  stype : Nat
deriving DecidableEq

/-- Source.write_train, index part: append (pos, nrec), advance pos, reset
nrec to int(not stype). The per-dataset writes are modelled separately. -/
def Source.write_train (s : Source) : Source :=
  { s with first := s.first ++ [s.pos], count := s.count ++ [s.nrec],
           pos := s.pos + s.nrec, nrec := if s.stype = 0 then 1 else 0 }

/-- The recomputation loop at the end of Source.write_index:
pos = 0; for t in range(len(count)): first[t] = pos; pos += count[t].
The last clause is where Python would raise IndexError (first shorter than
count); it is unreachable because the two lists always have equal length. -/
def recountFirst (pos : Nat) : List Nat → List Nat → List Nat × Nat
  | _ :: fs, c :: cs =>
    let r := recountFirst (pos + c) fs cs
    (pos :: r.1, r.2)
  | fs, [] => (fs, pos)
  | [], _ :: _ => ([], pos)

/-- Source.write_index: persist the leading ntrains entries of first/count
(dropping them from memory) and recompute the remaining offsets from zero. -/
def Source.write_index (s : Source) (ntrains : Nat) : Source :=
  let first0 := s.first.drop ntrains
  let count := s.count.drop ntrains
  let r := recountFirst 0 first0 count
  { s with first := r.1, count := count, pos := r.2 }

/-- An event in the life of a Source: a train close (with the entry count
the preceding add_value calls staged) or an index write of ntrains trains. -/
inductive SrcOp where
  | train (n : Nat)
  | index (ntrains : Nat)
deriving DecidableEq

/-- Run a sequence of source operations. -/
def runSrc (s : Source) : List SrcOp → Source
  | [] => s
  | SrcOp.train n :: rest => runSrc (Source.write_train { s with nrec := n }) rest
  | SrcOp.index k :: rest => runSrc (s.write_index k) rest

/-- A fresh Source of the given section type. -/
def srcInit (stype : Nat) : Source := ⟨[], [], 0, 0, stype⟩

/-- Offsets b, b + c0, b + c0 + c1, ...: the shape of a chained first list. -/
def prefixSums (b : Nat) : List Nat → List Nat
  | [] => []
  | c :: cs => b :: prefixSums (b + c) cs

/-- Session state for a single Control source with one dataset and a
buffered writer: staged mirrors _train_data[source_name][key]. -/
structure CtrlState (α : Type) where
  staged : Option α
  first : List Nat
  count : List Nat
  pos : Nat
  nrec : Nat
  wr : DatasetBufferedWriter α
  fds : FileDS α
deriving DecidableEq

/-- A caller action on the control session. -/
inductive CtrlOp (α : Type) where
  | add (v : α)
  | train
deriving DecidableEq

/-- add_value for a Control dataset (the shape check fixes nrec = 1 and a
batch of more than one entry is rejected before this point): stage the
value and set the source's nrec if it was unset. -/
def ctrlAdd {α : Type} (s : CtrlState α) (v : α) : CtrlState α :=
  { s with staged := some v, nrec := if s.nrec = 0 then 1 else s.nrec }

/-- FileWriterBase.write_train restricted to one Control source: the
completeness check raises ValueError (none) when the dataset's key was
never submitted; otherwise Source.write_train writes the staged value with
the current nrec, records (pos, nrec) and resets nrec to int(not stype) = 1;
the staged data is not cleared (only stype == 1 entries are deleted from
_train_data). -/
def ctrlTrain {α : Type} [Inhabited α] (s : CtrlState α) : Option (CtrlState α) :=
  match s.staged with
  | none => none
  | some v =>
    (s.wr.write s.fds (List.replicate s.nrec v) s.nrec).map (fun p =>
      { s with first := s.first ++ [s.pos], count := s.count ++ [s.nrec],
               pos := s.pos + s.nrec, nrec := 1, wr := p.1, fds := p.2 })

/-- One step of the control session. -/
def ctrlStep {α : Type} [Inhabited α] (s : CtrlState α) :
    CtrlOp α → Option (CtrlState α)
  | CtrlOp.add v => some (ctrlAdd s v)
  | CtrlOp.train => ctrlTrain s

/-- Run a sequence of control-session operations. -/
def ctrlRunFrom {α : Type} [Inhabited α] (s : CtrlState α) :
    List (CtrlOp α) → Option (CtrlState α)
  | [] => some s
  | op :: rest => (ctrlStep s op).bind (fun s1 => ctrlRunFrom s1 rest)

/-- Fresh control session over a staging block of the given chunk rows. -/
def ctrlInit (size : Nat) : CtrlState Nat :=
  ⟨none, [], [], 0, 0, bwInit size, ⟨[]⟩⟩

/-- The last explicitly submitted value of an operation sequence, starting
from a previously staged value. -/
def lastSubmitted {α : Type} : Option α → List (CtrlOp α) → Option α
  | cur, [] => cur
  | _, CtrlOp.add v :: rest => lastSubmitted (some v) rest
  | cur, CtrlOp.train :: rest => lastSubmitted cur rest

/-- The value persisted for each completed train: the staged (carried)
value at the time of each train operation. The none case contributes
nothing; it corresponds to a run the session rejects. -/
def trainVals {α : Type} : Option α → List (CtrlOp α) → List α
  | _, [] => []
  | _, CtrlOp.add v :: rest => trainVals (some v) rest
  | cur, CtrlOp.train :: rest =>
    match cur with
    | some v => v :: trainVals cur rest
    | none => trainVals cur rest

/-- The rows the session has logically appended: flushed rows plus the
currently staged prefix of the writer's buffer. -/
def logicalRows {α : Type} (s : CtrlState α) : List α :=
  s.fds.data ++ s.wr.buf.take s.wr.nbuf

/-- The backing array contents after flushing the writer, when the flush
succeeds. -/
def flushedData {α : Type} [Inhabited α] (s : CtrlState α) : Option (List α) :=
  (s.wr.flush s.fds).map (fun p => p.2.data)

/-- A source's section type and registered dataset keys, as seen by the
completeness check. -/
structure SourceDecl where
  stype : Nat
  keys : List String
deriving DecidableEq

/-- The dynamic return type of Source.is_data_complete: a list of missing
keys, or a boolean. -/
inductive CompletenessStatus where
  | missingKeys (l : List String)
  | ok (b : Bool)
deriving DecidableEq

/-- Source.is_data_complete: an Instrument source with an entirely empty
submission returns False; otherwise the registered keys absent from the
submission are returned as a list when nonempty, else True. -/
def SourceDecl.is_data_complete (src : SourceDecl) (dataKeys : List String) :
    CompletenessStatus :=
  if src.stype = 1 ∧ dataKeys.length = 0 then CompletenessStatus.ok false
  else
    let missed := src.keys.filter (fun k => !(dataKeys.contains k))
    if missed ≠ [] then CompletenessStatus.missingKeys missed
    else CompletenessStatus.ok true

/-- The dynamic return type of FileWriterBase.is_data_complete: a list of
(source, missing keys) pairs, or a boolean. -/
inductive FileStatus where
  | missing (l : List (String × List String))
  | ok (b : Bool)
deriving DecidableEq

/-- The loop body of FileWriterBase.is_data_complete, accumulating the
missed pairs and the and-folded boolean. -/
def is_data_complete_go (data : String → List String) :
    List (String × SourceDecl) → List (String × List String) → Bool → FileStatus
  | [], missed, flag =>
    if missed ≠ [] then FileStatus.missing missed else FileStatus.ok flag
  | (n, src) :: rest, missed, flag =>
    match src.is_data_complete (data n) with
    | CompletenessStatus.missingKeys m =>
      is_data_complete_go data rest (missed ++ [(n, m)]) flag
    | CompletenessStatus.ok b => is_data_complete_go data rest missed (flag && b)

/-- FileWriterBase.is_data_complete over the session's sources, where data
maps a source name to the keys submitted for it this train (the default {}
of _train_data.get becomes the empty key list). -/
def FileWriterBase.is_data_complete (sources : List (String × SourceDecl))
    (data : String → List String) : FileStatus :=
  is_data_complete_go data sources [] true

/-- The outcome of the completeness handling in FileWriterBase.write_train. -/
inductive TrainOutcome where
  | raise (l : List (String × List String))
  | warn
  | ok
deriving DecidableEq

/-- The completeness-handling prefix of FileWriterBase.write_train: a list
status raises ValueError with the missing pairs; otherwise a false status
produces a RuntimeWarning only when warn_on_missing_data is set. -/
def FileWriterBase.write_train_check (warn_on_missing_data : Bool)
    (sources : List (String × SourceDecl)) (data : String → List String) :
    TrainOutcome :=
  match FileWriterBase.is_data_complete sources data with
  | FileStatus.missing l => TrainOutcome.raise l
  | FileStatus.ok b =>
    if warn_on_missing_data ∧ !b then TrainOutcome.warn else TrainOutcome.ok

/-- The missing-keys list a source contributes to the completeness check,
if any. -/
def missedOf (src : SourceDecl) (dataKeys : List String) :
    Option (List String) :=
  match src.is_data_complete dataKeys with
  | CompletenessStatus.missingKeys m => some m
  | CompletenessStatus.ok _ => none

/-- The boolean status a source contributes to the and-fold of the
completeness check (sources that report missing keys do not touch it). -/
def okBit (src : SourceDecl) (dataKeys : List String) : Bool :=
  match src.is_data_complete dataKeys with
  | CompletenessStatus.ok b => b
  | CompletenessStatus.missingKeys _ => true

/-- The (source, missing keys) pairs the completeness loop collects, in
source order. -/
def allMissed (sources : List (String × SourceDecl))
    (data : String → List String) : List (String × List String) :=
  sources.filterMap (fun p => (missedOf p.2 (data p.1)).map (fun m => (p.1, m)))

/-- Whether some instrument source received an entirely empty submission. -/
def anyEmptyInstrument (sources : List (String × SourceDecl))
    (data : String → List String) : Bool :=
  sources.any (fun p => decide (p.2.stype = 1 ∧ (data p.1).length = 0))

/-- The and-fold of the boolean statuses the completeness loop sees. -/
def okFlag (sources : List (String × SourceDecl))
    (data : String → List String) : Bool :=
  sources.all (fun p => okBit p.2 (data p.1))

/-- Session state for sequence rotation: the live train index lists, the
sequence counter and the index datasets of the files closed so far. -/
structure RotSession where
  max_train_per_file : Nat
  break_into_sequence : Bool
  trains : List Nat
  timestamp : List Nat
  flags : List Nat
  seq : Nat
  closed : List (List Nat × List Nat × List Nat)
deriving DecidableEq

/-- write_indices for one index dataset: the dataset was created with
max_train_per_file rows of zeros; resize it to ntrains and assign the data. -/
def writtenIndexDS (maxTrains ntrains : Nat) (data : List Nat) : List Nat :=
  setSlice (listResize (List.replicate maxTrains 0) ntrains 0) 0 data

/-- FileWriterBase.close for a session without data sources: write the real
indices (trainId, timestamp, flag) into the file, record the closed file
and reset the live lists. -/
def RotSession.close (s : RotSession) : RotSession :=
  let n := s.trains.length
  { s with
    closed := s.closed ++
      [(writtenIndexDS s.max_train_per_file n s.trains,
        writtenIndexDS s.max_train_per_file n s.timestamp,
        writtenIndexDS s.max_train_per_file n s.flags)],
    trains := [], timestamp := [], flags := [] }

/-- FileWriterBase.rotate_sequence_file: close the current file and open a
new one when the configured train count is reached. -/
def RotSession.rotate_sequence_file (s : RotSession) : RotSession :=
  if s.break_into_sequence ∧ s.max_train_per_file ≤ s.trains.length then
    { s.close with seq := s.seq + 1 }
  else s

/-- FileWriterBase.write_train for a session without data sources: rotate
if necessary, then append (tid, ts, flag 1) to the train index. -/
def RotSession.write_train (s : RotSession) (tid ts : Nat) : RotSession :=
  let s1 := s.rotate_sequence_file
  { s1 with trains := s1.trains ++ [tid], timestamp := s1.timestamp ++ [ts],
            flags := s1.flags ++ [1] }

/-- A fresh session with the given rotation options. -/
def rotInit (maxTrains : Nat) (brk : Bool) : RotSession :=
  ⟨maxTrains, brk, [], [], [], 0, []⟩

/-- The chain invariant of a Source: first is the prefix-sum list of count
from some base, and pos sits at the end of the chain. -/
def SrcInv (s : Source) : Prop :=
  ∃ b, s.first = prefixSums b s.count ∧ s.pos = b + s.count.sum

/-- Run invariant of the control session: the staged value forces nrec = 1,
nrec never exceeds 1, and the writer and dataset are consistent. -/
def CtrlInv {α : Type} (size : Nat) (s : CtrlState α) : Prop :=
  (s.staged.isSome → s.nrec = 1) ∧ s.nrec ≤ 1 ∧
  s.wr.size = size ∧ s.wr.buf.length = size ∧ s.wr.nbuf < size ∧
  s.fds.data.length = s.wr.pos

/-- C1: the claim that a DatasetBufferedWriter and a DatasetDirectWriter
produce identical backing-array contents for every write sequence fails on
the source: DatasetDirectWriter.write never advances its position, so for
the two-call sequence write([10],1); write([20],1) the direct writer writes
both records at row 0 and ends with contents [20], while the buffered
writer (chunk rows 4) correctly appends and ends with [10, 20]. -/
theorem c1_buffered_direct_diverge :
    bufferedRun 4 [([10], 1), ([20], 1)] = some [10, 20] ∧
    directRun [([10], 1), ([20], 1)] = some [20] ∧
    bufferedRun 4 [([10], 1), ([20], 1)] ≠ directRun [([10], 1), ([20], 1)] :=
  ⟨rfl, rfl, by decide⟩

/-- C2: the claim that DatasetDirectWriter.write advances the position by
nrec fails on the source: after write([10],1); write([20],1) the writer's
pos is still 0 and the second record overwrote the first, leaving the
backing array with the single row [20] instead of [10, 20]. -/
theorem c2_direct_writer_pos_not_advanced :
    directRunFrom (⟨0⟩, (⟨[]⟩ : FileDS Nat)) [([10], 1), ([20], 1)] =
      some (⟨0⟩, ⟨[20]⟩) := rfl

/-- C3: the claim that in the top-off branch of write_many the growth axis
is extended before the bulk write fails on the source: that branch calls
write_direct for rows [pos, pos + size) without any resize, so with chunk
rows 4, three staged records and a two-record batch the write targets rows
[0, 4) of a dataset whose extent is 0 and the HDF5 layer raises (none). -/
theorem c3_topoff_write_out_of_extent :
    DatasetBufferedWriter.write_many ⟨[1, 2, 3, 0], 4, 3, 0⟩
      (⟨[]⟩ : FileDS Nat) [4, 5] 2 = none ∧
    bufferedRun 4 [([1], 1), ([2], 1), ([3], 1), ([4, 5], 2)] = none :=
  ⟨rfl, rfl⟩

/-- C9: with max_train_per_file = 2 and break_into_sequence = true, writing
five trains and closing produces three sequence files whose recorded train
counts are [2, 2, 1], and in each closed file the trainId, timestamp and
flag index datasets all have length equal to that file's train count. -/
theorem c9_sequence_rotation :
    (((((((rotInit 2 true).write_train 101 0).write_train 102 0).write_train
        103 0).write_train 104 0).write_train 105 0).close).closed =
      [([101, 102], [0, 0], [1, 1]),
       ([103, 104], [0, 0], [1, 1]),
       ([105], [0], [1])] ∧
    (((((((rotInit 2 true).write_train 101 0).write_train 102 0).write_train
        103 0).write_train 104 0).write_train 105 0).close).closed.map
        (fun p => (p.1.length, p.2.1.length, p.2.2.length)) =
      [(2, 2, 2), (2, 2, 2), (1, 1, 1)] :=
  ⟨rfl, rfl⟩

/-- C10: for a dataset without an explicit chunks override, Dataset.create
passes the user-supplied chunks attribute (none) to the storage engine's
dataset creation, while the chunks_autosize result (which is some shape) is
what the buffered writer's staging block is sized from; the on-disk chunks
argument therefore never equals the autosized chunk shape. -/
theorem c10_create_chunks (d : Dataset) (mt : Nat) (buffering : Bool)
    (hc : d.chunks = none) :
    (d.create mt buffering).1.chunksArg = none ∧
    (d.create mt true).2.stagingShape = d.chunks_autosize mt ∧
    (d.chunks_autosize mt).isSome = true ∧
    (d.create mt buffering).1.chunksArg ≠ d.chunks_autosize mt := by
  have hs : (d.chunks_autosize mt).isSome = true := by
    unfold Dataset.chunks_autosize
    simp [hc]
  refine ⟨by simp [Dataset.create, hc], by simp [Dataset.create, CreatedWriter.stagingShape], hs, ?_⟩
  simp [Dataset.create, hc]
  intro h
  rw [← h] at hs
  simp at hs

/-- Witness for c10_create_chunks at a concrete scalar float dataset. -/
theorem c10_create_chunks_witness :
    (⟨[], 8, none, 1⟩ : Dataset).chunks = none ∧
    ((⟨[], 8, none, 1⟩ : Dataset).create 500 true).1.chunksArg = none ∧
    ((⟨[], 8, none, 1⟩ : Dataset).create 500 true).2.stagingShape =
      (⟨[], 8, none, 1⟩ : Dataset).chunks_autosize 500 ∧
    ((⟨[], 8, none, 1⟩ : Dataset).chunks_autosize 500).isSome = true ∧
    ((⟨[], 8, none, 1⟩ : Dataset).create 500 true).1.chunksArg ≠
      (⟨[], 8, none, 1⟩ : Dataset).chunks_autosize 500 := by
  have h := c10_create_chunks ⟨[], 8, none, 1⟩ 500 true rfl
  exact ⟨rfl, h.1, h.2.1, h.2.2.1, h.2.2.2⟩

/-- C8: for every entry shape, itemsize and section type with nbytes > 0
and a positive train-capacity hint, chunks_autosize (without an override)
returns a chunk whose row count is at least 1, and for control sources
(stype = 0) at most max_trains. -/
theorem c8_autosize_bounds (shape : List Nat) (isz stype mt : Nat)
    (hb : 0 < shape.prod * isz) (hmt : 1 ≤ mt) :
    ∃ r, Dataset.chunks_autosize ⟨shape, isz, none, stype⟩ mt =
        some (r :: shape) ∧ 1 ≤ r ∧ (stype = 0 → r ≤ mt) := by
  unfold Dataset.chunks_autosize
  dsimp only
  simp only [Option.isSome_none, Bool.false_eq_true, if_false]
  have hB : 1 ≤ nth [mt, 32, 32]
      ((if shape.prod ≠ 1 then 1 else 0) * (1 + if shape.length > 1 then 1 else 0)) := by
    split <;> split <;> simp [nth] <;> omega
  refine ⟨_, rfl, ?_, ?_⟩
  · split
    · exact Nat.le_min.mpr ⟨le_trans hB (le_max_right _ _), hmt⟩
    · exact le_trans hB (le_max_right _ _)
  · intro h0
    simp only [h0, if_pos]
    exact Nat.min_le_right _ _

/-- Witness for c8_autosize_bounds at the scalar 8-byte control dataset
with max_trains = 500. -/
theorem c8_autosize_bounds_witness :
    0 < ([] : List Nat).prod * 8 ∧ 1 ≤ 500 ∧
    ∃ r, Dataset.chunks_autosize ⟨[], 8, none, 0⟩ 500 =
        some (r :: []) ∧ 1 ≤ r ∧ (0 = 0 → r ≤ 500) :=
  ⟨by decide, by decide, c8_autosize_bounds [] 8 0 500 (by decide) (by decide)⟩

/-- C6 counterexample: with the default configuration (no warning flag), a
train whose sole instrument source has its required field entirely missing
is written without any failure: write_train's completeness handling yields
the silent ok outcome instead of the hard failure the claim requires; and
with warn_on_missing_data set, a control source with a missing required
field still raises instead of warning. -/
theorem c6_counterexample :
    FileWriterBase.write_train_check false [("i", ⟨1, ["k"]⟩)] (fun _ => []) =
      TrainOutcome.ok ∧
    FileWriterBase.write_train_check true [("c", ⟨0, ["k"]⟩)] (fun _ => []) =
      TrainOutcome.raise [("c", ["k"])] :=
  ⟨rfl, rfl⟩

/-- flush always leaves an empty staging buffer and keeps the chunk size. -/
theorem flush_nbuf {α : Type} [Inhabited α] {w w' : DatasetBufferedWriter α}
    {f f' : FileDS α} (h : w.flush f = some (w', f')) :
    w'.nbuf = 0 ∧ w'.size = w.size := by
  unfold DatasetBufferedWriter.flush at h
  split at h
  · rw [Option.map_eq_some'] at h
    obtain ⟨f2, -, hp⟩ := h
    rw [Prod.mk.injEq] at hp
    obtain ⟨hw, -⟩ := hp
    rw [← hw]
    exact ⟨rfl, rfl⟩
  · rw [Option.some_inj, Prod.mk.injEq] at h
    obtain ⟨hw, -⟩ := h
    rw [← hw]
    rename_i hz
    simp only [ne_eq, not_not] at hz
    exact ⟨hz, rfl⟩

/-- write_one keeps the staging fill level strictly below the chunk size. -/
theorem write_one_nbuf {α : Type} [Inhabited α] {w w' : DatasetBufferedWriter α}
    {f f' : FileDS α} {v : α} (h : w.write_one f v = some (w', f'))
    (hn : w.nbuf < w.size) : w'.nbuf < w'.size := by
  unfold DatasetBufferedWriter.write_one at h
  dsimp only at h
  split at h
  · split at h
    · obtain ⟨h0, hsz⟩ := flush_nbuf h
      simp only at hsz
      omega
    · rw [Option.some_inj, Prod.mk.injEq] at h
      obtain ⟨hw, -⟩ := h
      rw [← hw]
      rename_i hle
      simp only [not_le] at hle
      simpa using hle
  · simp at h

/-- write_many keeps the staging fill level strictly below the chunk size. -/
theorem write_many_nbuf {α : Type} [Inhabited α] {w w' : DatasetBufferedWriter α}
    {f f' : FileDS α} {arr : List α} {nrec : Nat}
    (h : w.write_many f arr nrec = some (w', f'))
    (hn : w.nbuf < w.size) : w'.nbuf < w'.size := by
  unfold DatasetBufferedWriter.write_many at h
  dsimp only at h
  split at h
  · rw [Option.some_inj, Prod.mk.injEq] at h
    obtain ⟨hw, -⟩ := h
    rw [← hw]
    rename_i hlt
    simp only
    omega
  · rename_i hge
    split at h
    · rw [Option.map_eq_some'] at h
      obtain ⟨f2, -, hp⟩ := h
      rw [Prod.mk.injEq] at hp
      obtain ⟨hw, -⟩ := hp
      rw [← hw]
      rename_i hc
      obtain ⟨-, hlt⟩ := hc
      simp only
      omega
    · rw [Option.bind_eq_some] at h
      obtain ⟨f2, -, h2⟩ := h
      rw [Option.map_eq_some'] at h2
      obtain ⟨f3, -, hp⟩ := h2
      rw [Prod.mk.injEq] at hp
      obtain ⟨hw, -⟩ := hp
      rw [← hw]
      simp only
      exact Nat.mod_lt _ (by omega)

/-- C7: whenever the DatasetBufferedWriter is idle with its invariant
(fill level strictly below the chunk rows, and at least one chunk row),
then after any flush, write_one, write_many or write call that returns,
the fill level is again strictly below the chunk rows, and after flush it
is exactly 0. -/
theorem c7_staging_invariant {α : Type} [Inhabited α]
    (w : DatasetBufferedWriter α) (f : FileDS α) (v : α) (arr data : List α)
    (nrec : Nat) (hs : 1 ≤ w.size) (hn : w.nbuf < w.size) :
    (match w.flush f with
     | some p => p.1.nbuf = 0 ∧ p.1.nbuf < p.1.size
     | none => True) ∧
    (match w.write_one f v with
     | some p => p.1.nbuf < p.1.size
     | none => True) ∧
    (match w.write_many f arr nrec with
     | some p => p.1.nbuf < p.1.size
     | none => True) ∧
    (match w.write f data nrec with
     | some p => p.1.nbuf < p.1.size
     | none => True) := by
  refine ⟨?_, ?_, ?_, ?_⟩
  · cases hF : w.flush f with
    | none => trivial
    | some p =>
      obtain ⟨h0, hsz⟩ := flush_nbuf hF
      exact ⟨h0, by omega⟩
  · cases hO : w.write_one f v with
    | none => trivial
    | some p => exact write_one_nbuf hO hn
  · cases hM : w.write_many f arr nrec with
    | none => trivial
    | some p => exact write_many_nbuf hM hn
  · cases hW : w.write f data nrec with
    | none => trivial
    | some p =>
      unfold DatasetBufferedWriter.write at hW
      split at hW
      · exact write_one_nbuf hW hn
      · exact write_many_nbuf hW hn

/-- Witness for c7_staging_invariant on a fresh writer with 4 chunk rows. -/
theorem c7_staging_invariant_witness :
    (match (bwInit 4).flush ⟨[]⟩ with
     | some p => p.1.nbuf = 0 ∧ p.1.nbuf < p.1.size
     | none => True) ∧
    (match (bwInit 4).write_one ⟨[]⟩ 7 with
     | some p => p.1.nbuf < p.1.size
     | none => True) ∧
    (match (bwInit 4).write_many ⟨[]⟩ [1, 2] 2 with
     | some p => p.1.nbuf < p.1.size
     | none => True) ∧
    (match (bwInit 4).write ⟨[]⟩ [1, 2] 2 with
     | some p => p.1.nbuf < p.1.size
     | none => True) :=
  c7_staging_invariant (bwInit 4) ⟨[]⟩ 7 [1, 2] [1, 2] 2 (by decide) (by decide)

/-- prefixSums has the same length as its count list. -/
theorem prefixSums_length (b : Nat) (cs : List Nat) :
    (prefixSums b cs).length = cs.length := by
  induction cs generalizing b with
  | nil => rfl
  | cons c cs ih => simp [prefixSums, ih]

/-- Appending one count extends the prefix-sum list by the running total. -/
theorem prefixSums_append (b : Nat) (cs : List Nat) (n : Nat) :
    prefixSums b (cs ++ [n]) = prefixSums b cs ++ [b + cs.sum] := by
  induction cs generalizing b with
  | nil => simp [prefixSums]
  | cons c cs ih => simp [prefixSums, ih, Nat.add_assoc]

/-- The write_index recomputation loop produces the prefix sums of count
and leaves pos at the total, whenever the two lists have equal length. -/
theorem recountFirst_eq (p : Nat) (fs cs : List Nat) (h : fs.length = cs.length) :
    recountFirst p fs cs = (prefixSums p cs, p + cs.sum) := by
  induction cs generalizing p fs with
  | nil =>
    cases fs with
    | nil => simp [recountFirst, prefixSums]
    | cons f fs => simp at h
  | cons c cs ih =>
    cases fs with
    | nil => simp at h
    | cons f fs =>
      simp only [recountFirst, prefixSums]
      rw [ih (p + c) fs (by simpa using h)]
      simp [Nat.add_assoc]

/-- Consecutive entries of a prefix-sum list differ by the matching count. -/
theorem prefixSums_chain (cs : List Nat) (b t : Nat)
    (h : t + 1 < (prefixSums b cs).length) :
    nth (prefixSums b cs) t + nth cs t = nth (prefixSums b cs) (t + 1) := by
  induction cs generalizing b t with
  | nil => simp [prefixSums] at h
  | cons c cs ih =>
    cases t with
    | zero =>
      cases cs with
      | nil => simp [prefixSums] at h
      | cons c2 cs2 => simp [prefixSums, nth]
    | succ t =>
      simp only [prefixSums, nth, List.getD_cons_succ] at h ⊢
      exact ih (b + c) t (by simpa [prefixSums] using h)

/-- The fresh source satisfies the chain invariant. -/
theorem srcInit_inv (stype : Nat) : SrcInv (srcInit stype) :=
  ⟨0, rfl, rfl⟩

/-- Source.write_train preserves the chain invariant for any staged count. -/
theorem write_train_inv (s : Source) (n : Nat) (h : SrcInv s) :
    SrcInv (Source.write_train { s with nrec := n }) := by
  obtain ⟨b, h1, h2⟩ := h
  refine ⟨b, ?_, ?_⟩
  · simp only [Source.write_train, h1, h2]
    rw [prefixSums_append]
  · simp [Source.write_train, h2, Nat.add_assoc]

/-- Source.write_index preserves the chain invariant (with base zero). -/
theorem write_index_inv (s : Source) (k : Nat) (h : SrcInv s) :
    SrcInv (s.write_index k) := by
  obtain ⟨b, h1, h2⟩ := h
  have hlen : (s.first.drop k).length = (s.count.drop k).length := by
    simp [h1, prefixSums_length]
  refine ⟨0, ?_, ?_⟩ <;>
    simp [Source.write_index, recountFirst_eq 0 _ _ hlen]

/-- Any interleaving of train closes and index writes keeps the invariant. -/
theorem runSrc_inv (s : Source) (ops : List SrcOp) (h : SrcInv s) :
    SrcInv (runSrc s ops) := by
  induction ops generalizing s with
  | nil => exact h
  | cons op rest ih =>
    cases op with
    | train n => exact ih _ (write_train_inv s n h)
    | index k => exact ih _ (write_index_inv s k h)

/-- C4: for every source section type and every sequence of write_train
calls (with arbitrary staged entry counts) interleaved with write_index
trims, the recorded index sequences satisfy
first[t] + count[t] = first[t+1] for all consecutive recorded trains. -/
theorem c4_first_count_chain (stype : Nat) (ops : List SrcOp) (t : Nat)
    (h : t + 1 < (runSrc (srcInit stype) ops).first.length) :
    nth (runSrc (srcInit stype) ops).first t +
      nth (runSrc (srcInit stype) ops).count t =
      nth (runSrc (srcInit stype) ops).first (t + 1) := by
  obtain ⟨b, h1, h2⟩ := runSrc_inv (srcInit stype) ops (srcInit_inv stype)
  rw [h1] at h ⊢
  exact prefixSums_chain _ b t h

/-- Witness for c4_first_count_chain: two trains of 3 and 2 entries, an
index write of one train, then a train of 5 entries. -/
theorem c4_first_count_chain_witness :
    0 + 1 < (runSrc (srcInit 1)
      [SrcOp.train 3, SrcOp.train 2, SrcOp.index 1, SrcOp.train 5]).first.length ∧
    nth (runSrc (srcInit 1)
        [SrcOp.train 3, SrcOp.train 2, SrcOp.index 1, SrcOp.train 5]).first 0 +
      nth (runSrc (srcInit 1)
        [SrcOp.train 3, SrcOp.train 2, SrcOp.index 1, SrcOp.train 5]).count 0 =
      nth (runSrc (srcInit 1)
        [SrcOp.train 3, SrcOp.train 2, SrcOp.index 1, SrcOp.train 5]).first 1 :=
  ⟨by decide, c4_first_count_chain 1
    [SrcOp.train 3, SrcOp.train 2, SrcOp.index 1, SrcOp.train 5] 0 (by decide)⟩

/-- Setting the slot at the fill level and taking one more row appends the
value to the staged prefix. -/
theorem take_set_succ {α : Type} (l : List α) (i : Nat) (v : α)
    (h : i < l.length) : (l.set i v).take (i + 1) = l.take i ++ [v] := by
  induction l generalizing i with
  | nil => simp at h
  | cons a l ih =>
    cases i with
    | zero => simp
    | succ i => simp [ih i (by simpa using h)]

/-- Growing a list to its length plus k pads with k default rows. -/
theorem listResize_grow {α : Type} (l : List α) (k : Nat) (d : α) :
    listResize l (l.length + k) d = l ++ List.replicate k d := by
  unfold listResize
  rw [List.take_of_length_le (Nat.le_add_right _ _)]
  congr 2
  omega

/-- Slice-assigning xs right after l inside l plus padding yields l ++ xs. -/
theorem setSlice_pad {α : Type} (l xs : List α) (d : α) :
    setSlice (l ++ List.replicate xs.length d) l.length xs = l ++ xs := by
  unfold setSlice
  rw [List.take_left, List.drop_append, List.drop_replicate]
  simp

/-- After resizing by the write's length from a dataset whose extent equals
the write position, write_direct succeeds and appends the rows. -/
theorem writeAt_after_grow {α : Type} [Inhabited α] (f : FileDS α) (p : Nat)
    (xs : List α) (hp : f.data.length = p) :
    (f.resize (p + xs.length)).writeAt p xs = some ⟨f.data ++ xs⟩ := by
  subst hp
  unfold FileDS.resize FileDS.writeAt
  dsimp only
  rw [listResize_grow]
  rw [if_pos (by simp)]
  rw [setSlice_pad]

/-- flush succeeds from any consistent writer state and appends the staged
prefix to the dataset. -/
theorem flush_ok {α : Type} [Inhabited α] (w : DatasetBufferedWriter α)
    (f : FileDS α) (hb : w.buf.length = w.size) (hn : w.nbuf ≤ w.size)
    (hp : f.data.length = w.pos) :
    ∃ w1 f1, w.flush f = some (w1, f1) ∧ w1.buf = w.buf ∧ w1.size = w.size ∧
      w1.nbuf = 0 ∧ w1.pos = w.pos + w.nbuf ∧
      f1.data = f.data ++ w.buf.take w.nbuf := by
  unfold DatasetBufferedWriter.flush
  by_cases hz : w.nbuf ≠ 0
  · rw [if_pos hz]
    dsimp only
    have hlen : (w.buf.take w.nbuf).length = w.nbuf := by
      rw [List.length_take]
      omega
    have hgrow := writeAt_after_grow f w.pos (w.buf.take w.nbuf) hp
    rw [hlen] at hgrow
    rw [hgrow]
    exact ⟨_, _, rfl, rfl, rfl, rfl, rfl, rfl⟩
  · rw [if_neg hz]
    push_neg at hz
    exact ⟨w, f, rfl, rfl, rfl, hz, by omega, by simp [hz]⟩

/-- write_one succeeds from a consistent writer state, appends the value
to the logical rows and preserves the invariant. -/
theorem write_one_append {α : Type} [Inhabited α] (w : DatasetBufferedWriter α)
    (f : FileDS α) (v : α) (hb : w.buf.length = w.size) (hn : w.nbuf < w.size)
    (hp : f.data.length = w.pos) :
    ∃ w1 f1, w.write_one f v = some (w1, f1) ∧
      w1.buf.length = w.size ∧ w1.size = w.size ∧ w1.nbuf < w.size ∧
      f1.data.length = w1.pos ∧
      f1.data ++ w1.buf.take w1.nbuf = (f.data ++ w.buf.take w.nbuf) ++ [v] := by
  unfold DatasetBufferedWriter.write_one
  rw [if_pos (show w.nbuf < w.buf.length by omega)]
  dsimp only
  have htake := take_set_succ w.buf w.nbuf v (by omega)
  by_cases hful : w.size ≤ w.nbuf + 1
  · rw [if_pos hful]
    obtain ⟨w2, f2, hfl, hbuf2, hsz2, hnb2, hpos2, hdat2⟩ :=
      flush_ok ⟨w.buf.set w.nbuf v, w.size, w.nbuf + 1, w.pos⟩ f
        (by simpa using hb) (by dsimp only; omega) hp
    dsimp only at hbuf2 hsz2 hnb2 hpos2 hdat2
    refine ⟨w2, f2, hfl, ?_, hsz2, ?_, ?_, ?_⟩
    · rw [hbuf2]
      simpa using hb
    · omega
    · rw [hdat2, hpos2]
      rw [List.length_append, hp, List.length_take, List.length_set]
      omega
    · rw [hdat2, hnb2, hbuf2]
      rw [List.take_zero, List.append_nil, htake]
      rw [List.append_assoc]
  · rw [if_neg hful]
    refine ⟨_, _, rfl, ?_, rfl, ?_, hp, ?_⟩
    · simpa using hb
    · dsimp only
      omega
    · dsimp only
      rw [htake, List.append_assoc]

/-- Running the control session from any state satisfying the invariant:
the staged value tracks the last submission, the logical rows extend by the
per-train carried values, and each completed train records count 1. -/
theorem ctrlRun_spec {α : Type} [Inhabited α] (size : Nat) (hsz : 1 ≤ size)
    (ops : List (CtrlOp α)) : ∀ (s0 s : CtrlState α), CtrlInv size s0 →
    ctrlRunFrom s0 ops = some s →
    CtrlInv size s ∧ s.staged = lastSubmitted s0.staged ops ∧
    logicalRows s = logicalRows s0 ++ trainVals s0.staged ops ∧
    s.count = s0.count ++ List.replicate (trainVals s0.staged ops).length 1 := by
  induction ops with
  | nil =>
    intro s0 s h0 hr
    rw [ctrlRunFrom, Option.some_inj] at hr
    subst hr
    exact ⟨h0, rfl, by simp [trainVals], by simp [trainVals]⟩
  | cons op rest ih =>
    intro s0 s h0 hr
    cases op with
    | add v =>
      replace hr : ctrlRunFrom (ctrlAdd s0 v) rest = some s := hr
      have h1 : CtrlInv size (ctrlAdd s0 v) := by
        obtain ⟨hA, hB, hC, hD, hE, hF⟩ := h0
        refine ⟨?_, ?_, hC, hD, hE, hF⟩
        · intro _
          dsimp only [ctrlAdd]
          split
          · rfl
          · omega
        · dsimp only [ctrlAdd]
          split
          · exact le_refl 1
          · exact hB
      obtain ⟨hI, hst, hlog, hcnt⟩ := ih (ctrlAdd s0 v) s h1 hr
      exact ⟨hI, hst, hlog, hcnt⟩
    | train =>
      rw [show ctrlRunFrom s0 (CtrlOp.train :: rest) =
          (ctrlTrain s0).bind (fun s1 => ctrlRunFrom s1 rest) from rfl] at hr
      cases hstg : s0.staged with
      | none =>
        have htr : ctrlTrain s0 = none := by
          unfold ctrlTrain
          rw [hstg]
        rw [htr] at hr
        simp at hr
      | some v =>
        have hnr : s0.nrec = 1 := h0.1 (by rw [hstg]; rfl)
        obtain ⟨h1A, h1B, hC, hD, hE, hF⟩ := h0
        obtain ⟨w1, f1, hw1, hbl, hsz1, hnb1, hfl1, hcat⟩ :=
          write_one_append s0.wr s0.fds v (by rw [hD, hC]) (by omega) hF
        have htr : ctrlTrain s0 = some
            { s0 with
              first := s0.first ++ [s0.pos],
              count := s0.count ++ [1],
              pos := s0.pos + 1,
              nrec := 1,
              wr := w1,
              fds := f1 } := by
          unfold ctrlTrain
          rw [hstg]
          dsimp only
          rw [hnr]
          rw [show s0.wr.write s0.fds (List.replicate 1 v) 1 =
              s0.wr.write_one s0.fds v from rfl]
          rw [hw1]
          rfl
        rw [htr] at hr
        replace hr : ctrlRunFrom
            { s0 with
              first := s0.first ++ [s0.pos],
              count := s0.count ++ [1],
              pos := s0.pos + 1,
              nrec := 1,
              wr := w1,
              fds := f1 } rest = some s := hr
        have h2 : CtrlInv size
            { s0 with
              first := s0.first ++ [s0.pos],
              count := s0.count ++ [1],
              pos := s0.pos + 1,
              nrec := 1,
              wr := w1,
              fds := f1 } := by
          refine ⟨fun _ => rfl, le_refl 1, ?_, ?_, ?_, ?_⟩ <;> dsimp only
          · omega
          · omega
          · omega
          · exact hfl1
        obtain ⟨hI, hst, hlog, hcnt⟩ := ih _ s h2 hr
        dsimp only at hst hlog hcnt
        rw [hstg] at hst hlog hcnt
        have hTV : trainVals (some v) (CtrlOp.train :: rest) =
            v :: trainVals (some v) rest := rfl
        refine ⟨hI, ?_, ?_, ?_⟩
        · exact hst
        · rw [hTV, hlog]
          dsimp only [logicalRows]
          rw [hcat]
          simp [List.append_assoc]
        · rw [hTV, hcnt]
          simp [List.replicate_succ]

/-- C5: for a Control-cadence source with a buffered writer, every
successful run of submissions and write_train calls satisfies: the staged
value always equals the last explicitly submitted value (it is carried
forward across trains, never cleared); every recorded train has count 1;
and the backing array after the closing flush holds, for each train, the
value carried at that train (the last value submitted before it).  Trains
before the first submission are rejected by the completeness check, so
every successful write_train is one after the first submission. -/
theorem c5_control_carry_forward (size : Nat) (ops : List (CtrlOp Nat))
    (s : CtrlState Nat) (hsz : 1 ≤ size)
    (hrun : ctrlRunFrom (ctrlInit size) ops = some s) :
    s.staged = lastSubmitted none ops ∧
    s.count = List.replicate s.count.length 1 ∧
    flushedData s = some (trainVals (none : Option Nat) ops) := by
  have h0 : CtrlInv size (ctrlInit size) := by
    refine ⟨?_, ?_, rfl, ?_, ?_, rfl⟩
    · intro h
      simp [ctrlInit] at h
    · exact Nat.zero_le 1
    · simp [ctrlInit, bwInit]
    · simpa [ctrlInit, bwInit] using hsz
  obtain ⟨hI, hst, hlog, hcnt⟩ := ctrlRun_spec size hsz ops (ctrlInit size) s h0 hrun
  obtain ⟨-, -, hC, hD, hE, hF⟩ := hI
  refine ⟨hst, ?_, ?_⟩
  · rw [hcnt]
    dsimp only [ctrlInit]
    simp
  · obtain ⟨w2, f2, hfl, -, -, -, -, hdat⟩ :=
      flush_ok s.wr s.fds (by rw [hD, hC]) (by omega) hF
    unfold flushedData
    rw [hfl, Option.map_some']
    rw [hdat]
    have hlr : logicalRows s = trainVals (none : Option Nat) ops := by
      rw [hlog]
      simp [logicalRows, ctrlInit, bwInit]
    rw [show s.fds.data ++ s.wr.buf.take s.wr.nbuf = logicalRows s from rfl, hlr]

/-- Witness for c5_control_carry_forward: submit 5, close two trains, then
submit 7 and close one more train, with chunk rows 4. -/
theorem c5_control_carry_forward_witness :
    (⟨some 7, [0, 1, 2], [1, 1, 1], 3, 1, ⟨[5, 5, 7, 0], 4, 3, 0⟩, ⟨[]⟩⟩ :
        CtrlState Nat).staged =
      lastSubmitted none
        [CtrlOp.add 5, CtrlOp.train, CtrlOp.train, CtrlOp.add 7, CtrlOp.train] ∧
    (⟨some 7, [0, 1, 2], [1, 1, 1], 3, 1, ⟨[5, 5, 7, 0], 4, 3, 0⟩, ⟨[]⟩⟩ :
        CtrlState Nat).count =
      List.replicate (⟨some 7, [0, 1, 2], [1, 1, 1], 3, 1,
        ⟨[5, 5, 7, 0], 4, 3, 0⟩, ⟨[]⟩⟩ : CtrlState Nat).count.length 1 ∧
    flushedData (⟨some 7, [0, 1, 2], [1, 1, 1], 3, 1,
        ⟨[5, 5, 7, 0], 4, 3, 0⟩, ⟨[]⟩⟩ : CtrlState Nat) =
      some (trainVals (none : Option Nat)
        [CtrlOp.add 5, CtrlOp.train, CtrlOp.train, CtrlOp.add 7, CtrlOp.train]) :=
  c5_control_carry_forward 4
    [CtrlOp.add 5, CtrlOp.train, CtrlOp.train, CtrlOp.add 7, CtrlOp.train]
    ⟨some 7, [0, 1, 2], [1, 1, 1], 3, 1, ⟨[5, 5, 7, 0], 4, 3, 0⟩, ⟨[]⟩⟩
    (by decide) (by decide)

/-- The completeness loop, characterized by the collected missing pairs and
the and-fold of the boolean statuses. -/
theorem is_data_complete_go_spec (data : String → List String)
    (sources : List (String × SourceDecl)) :
    ∀ (missed : List (String × List String)) (flag : Bool),
    is_data_complete_go data sources missed flag =
      if missed ++ allMissed sources data ≠ [] then
        FileStatus.missing (missed ++ allMissed sources data)
      else FileStatus.ok (flag && okFlag sources data) := by
  induction sources with
  | nil =>
    intro missed flag
    simp [is_data_complete_go, allMissed, okFlag]
  | cons p rest ih =>
    intro missed flag
    obtain ⟨n, src⟩ := p
    cases hs : src.is_data_complete (data n) with
    | missingKeys m =>
      simp only [is_data_complete_go, hs]
      rw [ih]
      have hA : allMissed ((n, src) :: rest) data =
          (n, m) :: allMissed rest data := by
        unfold allMissed
        rw [List.filterMap_cons]
        dsimp only
        rw [show missedOf src (data n) = some m from by unfold missedOf; rw [hs]]
        rfl
      have hO : okFlag ((n, src) :: rest) data = okFlag rest data := by
        unfold okFlag
        rw [List.all_cons]
        dsimp only
        rw [show okBit src (data n) = true from by unfold okBit; rw [hs]]
        rw [Bool.true_and]
      rw [hA, hO]
      rw [show (missed ++ [(n, m)]) ++ allMissed rest data =
          missed ++ (n, m) :: allMissed rest data from by simp]
    | ok b =>
      simp only [is_data_complete_go, hs]
      rw [ih]
      have hA : allMissed ((n, src) :: rest) data = allMissed rest data := by
        unfold allMissed
        rw [List.filterMap_cons]
        dsimp only
        rw [show missedOf src (data n) = none from by unfold missedOf; rw [hs]]
        rfl
      have hO : okFlag ((n, src) :: rest) data = (b && okFlag rest data) := by
        unfold okFlag
        rw [List.all_cons]
        dsimp only
        rw [show okBit src (data n) = b from by unfold okBit; rw [hs]]
      rw [hA, hO, Bool.and_assoc]

/-- The boolean status of one source is false exactly when it is an
instrument source with an entirely empty submission. -/
theorem okBit_eq (src : SourceDecl) (ks : List String) :
    okBit src ks = !decide (src.stype = 1 ∧ ks.length = 0) := by
  unfold okBit SourceDecl.is_data_complete
  by_cases hc : src.stype = 1 ∧ ks.length = 0
  · rw [if_pos hc]
    simp [hc]
  · rw [if_neg hc, decide_eq_false hc]
    dsimp only
    by_cases hm : List.filter (fun k => !ks.contains k) src.keys ≠ []
    · rw [if_pos hm]
      rfl
    · rw [if_neg hm]
      rfl

/-- The and-fold of the boolean statuses is false exactly when some
instrument source received an entirely empty submission. -/
theorem okFlag_eq (sources : List (String × SourceDecl))
    (data : String → List String) :
    okFlag sources data = !(anyEmptyInstrument sources data) := by
  induction sources with
  | nil => rfl
  | cons p rest ih =>
    unfold okFlag anyEmptyInstrument at ih ⊢
    rw [List.all_cons, List.any_cons, Bool.not_or, ih]
    rw [okBit_eq]

/-- C6 amended: any source whose submission is missing registered fields --
other than an instrument source with an entirely empty submission -- makes
write_train raise a ValueError listing every such (source, missing keys)
pair, regardless of warn_on_missing_data; when no such source exists,
trains with some entirely-empty instrument source produce a RuntimeWarning
if warn_on_missing_data is set, and are silently written otherwise. -/
theorem c6_writetrain_outcome (warn : Bool)
    (sources : List (String × SourceDecl)) (data : String → List String) :
    FileWriterBase.write_train_check warn sources data =
      if allMissed sources data ≠ [] then
        TrainOutcome.raise (allMissed sources data)
      else if warn ∧ anyEmptyInstrument sources data then TrainOutcome.warn
      else TrainOutcome.ok := by
  unfold FileWriterBase.write_train_check FileWriterBase.is_data_complete
  rw [is_data_complete_go_spec]
  rw [List.nil_append]
  by_cases hm : allMissed sources data ≠ []
  · rw [if_pos hm, if_pos hm]
  · rw [if_neg hm, if_neg hm]
    rw [Bool.true_and, okFlag_eq]
    dsimp only
    rw [Bool.not_not]
